import Mathlib

/-!
Verification of the AARP onboarding-question manager: the question store's
CRUD + reorder contract (`server/questions.controller.ts`, the express
controller in the unnamed server part) and the client-side payload
normalizer and drag-and-drop reorder reconciler (`src/pages/ManageOnboarding.tsx`).

The embedding models JavaScript runtime values with an explicit `JVal` type
(JSON numbers are embedded as integers), member access as a fallible
operation (reading a property of `null`/`undefined` throws), and the
store as an explicit record of the module-level `questions` array and
`nextId` counter.
-/

namespace AARP

/-- The four canonical gender tags (`GenderOption` in `server/types.ts` and
`NewQuestion['applicableFor'][number]` on the client). -/
inductive Gender where
  | male
  | female
  | nonbinary
  | allGenders
deriving DecidableEq, Repr

/-- The string form of each canonical tag, as in `KNOWN_GENDERS`. -/
def Gender.toStr : Gender → String
  | .male => "Male"
  | .female => "Female"
  | .nonbinary => "Non-binary"
  | .allGenders => "All Genders"

/-- JavaScript runtime values as they occur in the client code: the JSON
values plus `undefined`. Numbers are embedded as integers. -/
inductive JVal where
  | undefined
  | null
  | bool (b : Bool)
  | num (n : Int)
  | str (s : String)
  | arr (elems : List JVal)
  | obj (fields : List (String × JVal))

/-- `v == null` in JS (loose equality): true exactly for `null` and `undefined`. -/
def isNullish : JVal → Bool
  | .null => true
  | .undefined => true
  | _ => false

/-- JS truthiness: `undefined`, `null`, `false`, `0` and `""` are falsy;
every object and array is truthy. -/
def jsTruthy : JVal → Bool
  | .undefined => false
  | .null => false
  | .bool b => b
  | .num n => n != 0
  | .str s => s != ""
  | .arr _ => true
  | .obj _ => true

/-- The nullish-coalescing operator `a ?? b`. -/
def jsNullish (a b : JVal) : JVal := if isNullish a then b else a

/-- The logical-or operator `a || b` (value-returning, by truthiness). -/
def jsOr (a b : JVal) : JVal := if jsTruthy a then a else b

/-- Property access `v[f]`: throws a `TypeError` when `v` is `null` or
`undefined`; yields `undefined` for an absent field or a non-object base. -/
def getField : JVal → String → Except String JVal
  | .undefined, f => .error ("TypeError: Cannot read properties of undefined (reading " ++ f ++ ")")
  | .null, f => .error ("TypeError: Cannot read properties of null (reading " ++ f ++ ")")
  | .obj fs, f => .ok ((fs.lookup f).getD .undefined)
  | _, _ => .ok .undefined

/-- Property access on a value already known not to be nullish (total form). -/
def jsGetD (v : JVal) (f : String) : JVal :=
  match v with
  | .obj fs => (fs.lookup f).getD .undefined
  | _ => .undefined

mutual
/-- JS `String(v)` coercion: arrays join their elements with commas
(`null`/`undefined` elements print as empty), objects print as
`[object Object]`. -/
def jsToString : JVal → String
  | .undefined => "undefined"
  | .null => "null"
  | .bool b => cond b "true" "false"
  | .num n => toString n
  | .str s => s
  | .arr xs => String.intercalate "," (jsToStringList xs)
  | .obj _ => "[object Object]"

/-- Stringification of array elements for `Array.prototype.toString`. -/
def jsToStringList : List JVal → List String
  | [] => []
  | .undefined :: xs => "" :: jsToStringList xs
  | .null :: xs => "" :: jsToStringList xs
  | x :: xs => jsToString x :: jsToStringList xs
end

/-- ASCII lower-casing of one character (the inputs of interest are ASCII). -/
def chLower (c : Char) : Char :=
  if 'A' ≤ c ∧ c ≤ 'Z' then Char.ofNat (c.toNat + 32) else c

/-- `s.toLowerCase()` on the ASCII fragment. -/
def jsToLower (s : String) : String := String.mk (s.toList.map chLower)

/-- JS whitespace for `trim`. -/
def isWs (c : Char) : Bool := c = ' ' ∨ c = '\n' ∨ c = '\t' ∨ c = '\r'

/-- `s.trim()`: strip leading and trailing whitespace. -/
def jsTrim (s : String) : String :=
  String.mk (((s.toList.dropWhile isWs).reverse.dropWhile isWs).reverse)

/-- Lexicographic comparison of character lists (code-unit order). -/
def lexLe : List Char → List Char → Bool
  | [], _ => true
  | _ :: _, [] => false
  | c :: cs, d :: ds => if c = d then lexLe cs ds else decide (c < d)

/-- `a.localeCompare(b) <= 0`, modelled as code-unit lexicographic order. -/
def strLe (a b : String) : Bool := lexLe a.toList b.toList

/-- Splitting accumulator for `jsSplitComma`. -/
def splitCommaAux : List Char → List Char → List String
  | [], acc => [String.mk acc.reverse]
  | c :: cs, acc =>
      if c = ',' then String.mk acc.reverse :: splitCommaAux cs []
      else splitCommaAux cs (c :: acc)

/-- `s.split(',')`. -/
def jsSplitComma (s : String) : List String := splitCommaAux s.toList []

/-- Value of a pure digit string, `none` when empty or containing a non-digit. -/
def digitsVal : List Char → Option Nat
  | [] => none
  | [c] => if c.isDigit then some (c.toNat - '0'.toNat) else none
  | c :: cs => do
      if c.isDigit then
        let rest ← digitsVal cs
        some ((c.toNat - '0'.toNat) * 10 ^ cs.length + rest)
      else none

/-- `Number(s)` on a string, integer fragment: the empty (or all-whitespace)
string is `0`, an optionally signed decimal numeral is its value, anything
else is `NaN` (`none`). -/
def strToNumber (s : String) : Option Int :=
  match (jsTrim s).toList with
  | [] => some 0
  | '-' :: ds => (digitsVal ds).map (fun n => -(n : Int))
  | '+' :: ds => (digitsVal ds).map (fun n => (n : Int))
  | ds => (digitsVal ds).map (fun n => (n : Int))

/-- JS `Number(v)` coercion restricted to the integer fragment: `none`
models `NaN` (and non-integer results, which the payloads do not use).
Arrays coerce through their string form, objects are `NaN`. -/
def jsNumber : JVal → Option Int
  | .undefined => none
  | .null => some 0
  | .bool b => some (if b then 1 else 0)
  | .num n => some n
  | .str s => strToNumber s
  | .arr xs => strToNumber (jsToString (.arr xs))
  | .obj _ => none

/-- `toNumber(val, fallback = 0)` from `ManageOnboarding.tsx`: numeric
coercion with a fallback when the result is not finite. -/
def toNumber (val : JVal) (fallback : Int) : Int := (jsNumber val).getD fallback

/-- `v === ''` (strict equality against the empty string). -/
def isEmptyStr : JVal → Bool
  | .str s => s == ""
  | _ => false

/-- Case-sensitive substring test, `s.includes(pat)`. -/
def containsSub (s pat : String) : Bool := decide (pat.toList <:+: s.toList)

/-- `normalizeGender` from `ManageOnboarding.tsx`: maps an arbitrary value to
one of the four canonical tags. The final four branches are the
`KNOWN_GENDERS.includes(s)` exact-match check expanded per tag. -/
def normalizeGender (val : JVal) : Gender :=
  match val with
  | .null => .allGenders
  | .undefined => .allGenders
  | v =>
    let s := jsTrim (jsToString v)
    if s = "" then .allGenders
    else
      let lower := jsToLower s
      if lower = "m" ∨ lower = "male" ∨ containsSub lower "male" then .male
      else if lower = "f" ∨ lower = "female" ∨ containsSub lower "female" then .female
      else if containsSub lower "non" ∨ containsSub lower "nonbinary" ∨ containsSub lower "non-binary" then .nonbinary
      else if containsSub lower "all" then .allGenders
      else if s = "Male" then .male
      else if s = "Female" then .female
      else if s = "Non-binary" then .nonbinary
      else if s = "All Genders" then .allGenders
      else .allGenders

/-- Whitespace skipping for the JSON grammar. -/
def skipWs : List Char → List Char
  | c :: cs => if c = ' ' ∨ c = '\n' ∨ c = '\t' ∨ c = '\r' then skipWs cs else c :: cs
  | [] => []

/-- JSON string-literal body: consumes up to the closing quote, mapping the
common escapes; unsupported escapes fail (as strict `JSON.parse` would on
genuinely malformed input). -/
def parseStrAux : List Char → Option (List Char × List Char)
  | '"' :: rest => some ([], rest)
  | '\\' :: c :: rest => do
      let e ← (match c with
        | '"' => some '"'
        | '\\' => some '\\'
        | '/' => some '/'
        | 'n' => some '\n'
        | 't' => some '\t'
        | 'r' => some '\r'
        | _ => none)
      let (s, r) ← parseStrAux rest
      some (e :: s, r)
  | c :: rest => do
      let (s, r) ← parseStrAux rest
      some (c :: s, r)
  | [] => none

/-- Consume a run of decimal digits, accumulating their value. -/
def parseDigits : Nat → List Char → Nat × List Char
  | acc, c :: cs =>
      if c.isDigit then parseDigits (acc * 10 + (c.toNat - '0'.toNat)) cs
      else (acc, c :: cs)
  | acc, [] => (acc, [])

/-- JSON integer literal (a fractional part or exponent falls outside the
integer fragment of the embedding and fails the parse). -/
def parseNum : List Char → Option (JVal × List Char) :=
  fun cs =>
    let (neg, cs') := match cs with
      | '-' :: rest => (true, rest)
      | _ => (false, cs)
    match cs' with
    | c :: _ =>
        if c.isDigit then
          let (n, rest) := parseDigits 0 cs'
          match rest with
          | '.' :: _ => none
          | 'e' :: _ => none
          | 'E' :: _ => none
          | _ => some (.num (if neg then -(n : Int) else (n : Int)), rest)
        else none
    | [] => none

mutual
/-- Recursive-descent JSON value parser (fuel-indexed), modelling
`JSON.parse` on the integer fragment of JSON. -/
def parseVal : Nat → List Char → Option (JVal × List Char)
  | 0, _ => none
  | fuel + 1, cs =>
    match skipWs cs with
    | 'n' :: 'u' :: 'l' :: 'l' :: rest => some (.null, rest)
    | 't' :: 'r' :: 'u' :: 'e' :: rest => some (.bool true, rest)
    | 'f' :: 'a' :: 'l' :: 's' :: 'e' :: rest => some (.bool false, rest)
    | '"' :: rest => (parseStrAux rest).map (fun p => (.str (String.mk p.1), p.2))
    | '[' :: rest =>
        (match skipWs rest with
         | ']' :: rest2 => some (.arr [], rest2)
         | other => (parseItems fuel other).map (fun p => (.arr p.1, p.2)))
    | '{' :: rest =>
        (match skipWs rest with
         | '}' :: rest2 => some (.obj [], rest2)
         | other => (parseMembers fuel other).map (fun p => (.obj p.1, p.2)))
    | other => parseNum other

/-- Comma-separated array items, up to the closing bracket. -/
def parseItems : Nat → List Char → Option (List JVal × List Char)
  | 0, _ => none
  | fuel + 1, cs => do
      let (v, rest) ← parseVal fuel cs
      match skipWs rest with
      | ',' :: rest2 => do
          let (vs, rest3) ← parseItems fuel (skipWs rest2)
          some (v :: vs, rest3)
      | ']' :: rest2 => some ([v], rest2)
      | _ => none

/-- Comma-separated object members, up to the closing brace. -/
def parseMembers : Nat → List Char → Option (List (String × JVal) × List Char)
  | 0, _ => none
  | fuel + 1, cs =>
      match skipWs cs with
      | '"' :: rest => do
          let (key, rest2) ← parseStrAux rest
          match skipWs rest2 with
          | ':' :: rest3 => do
              let (v, rest4) ← parseVal fuel (skipWs rest3)
              (match skipWs rest4 with
               | ',' :: rest5 => do
                   let (ms, rest6) ← parseMembers fuel (skipWs rest5)
                   some ((String.mk key, v) :: ms, rest6)
               | '}' :: rest5 => some ([(String.mk key, v)], rest5)
               | _ => none)
          | _ => none
      | _ => none
end

/-- `JSON.parse`: `none` models a thrown `SyntaxError`. -/
def jsonParse (s : String) : Option JVal :=
  match parseVal (s.length + 1) s.toList with
  | some (v, rest) => if skipWs rest = [] then some v else none
  | none => none

/-- First-occurrence de-duplication, as `Array.from(new Set(xs))` (a JS `Set`
keeps insertion order and the first occurrence of each element). -/
def jsDedup {α : Type} [DecidableEq α] (l : List α) : List α :=
  l.foldl (fun acc x => if x ∈ acc then acc else acc ++ [x]) []

/-- The gender-list branch of `normalizeQuestion` (lines 81-98): an array
maps elementwise through `normalizeGender`; a string first attempts a JSON
parse (an array parses elementwise, any other parse result is a single
value), then falls back to a comma-split or a single value; any other shape
yields the empty list. -/
def appListOf (rawAppFor : JVal) : List Gender :=
  match rawAppFor with
  | .arr xs => xs.map normalizeGender
  | .str s =>
      (match jsonParse s with
       | some (.arr ys) => ys.map normalizeGender
       | some v => [normalizeGender v]
       | none =>
           if s.toList.any (fun c => c = ',') then
             (jsSplitComma s).map (fun t => normalizeGender (.str t))
           else [normalizeGender (.str s)])
  | _ => []

/-- The raw value the gender normalization starts from:
`item.applicableFor ?? item.applicable_for` (on a non-nullish item). -/
def rawApplicableFor (item : JVal) : JVal :=
  jsNullish (jsGetD item "applicableFor") (jsGetD item "applicable_for")

/-- The canonical client-side `Question` shape produced by
`normalizeQuestion` in `ManageOnboarding.tsx`. The code does not coerce
`questionId` and `text`, so they remain raw values. -/
structure CQuestion where
  id : String
  questionId : JVal
  text : JVal
  order : Int
  category : String
  applicableFor : List Gender

/-- `normalizeQuestion(item)` from `ManageOnboarding.tsx`: resolves each
canonical field through its ordered list of candidate field names. Member
access on a `null`/`undefined` item throws, which the `Except` layer records. -/
def normalizeQuestion (item : JVal) : Except String CQuestion := do
  let idF ← getField item "id"
  let question_idF ← getField item "question_id"
  let questionIdF ← getField item "questionId"
  let qidF ← getField item "qid"
  let id : String :=
    if !isNullish idF && !isEmptyStr idF then jsToString idF
    else if jsTruthy question_idF then jsToString question_idF
    else jsToString (jsNullish questionIdF (.str ""))
  let questionId := jsNullish questionIdF (jsNullish question_idF (jsNullish qidF (.str "")))
  let textF ← getField item "text"
  let question_textF ← getField item "question_text"
  let questionTextF ← getField item "questionText"
  let questionF ← getField item "question"
  let bodyF ← getField item "body"
  let text := jsNullish textF (jsNullish question_textF (jsNullish questionTextF
      (jsNullish questionF (jsNullish bodyF (.str "")))))
  let orderF ← getField item "order"
  let displayOrderF ← getField item "displayOrder"
  let sortF ← getField item "sort"
  let order := toNumber (jsNullish orderF (jsNullish displayOrderF sortF)) 0
  let categoryF ← getField item "category"
  let phaseF ← getField item "phase"
  let phaseNameF ← getField item "phaseName"
  let category := jsToString (jsNullish categoryF (jsNullish phaseF
      (jsNullish phaseNameF (.str "Uncategorized"))))
  let appForF ← getField item "applicableFor"
  let app_forF ← getField item "applicable_for"
  let rawAppFor := jsNullish appForF app_forF
  let applicableFor0 : List Gender := appListOf rawAppFor
  let applicableFor1 := if applicableFor0.isEmpty then [.allGenders] else applicableFor0
  let applicableFor := jsDedup applicableFor1
  return { id := id, questionId := questionId, text := text, order := order,
           category := category, applicableFor := applicableFor }

/-- Ordering of `normalizeArray`'s final sort: ascending `order`, ties broken
by lexicographic comparison of `id` (the model of `localeCompare`). A stable
sort under this total preorder is exactly what the JS comparator
`a.order - b.order` with `localeCompare` tie-break produces. -/
def cmpByOrderThenId (a b : CQuestion) : Prop :=
  a.order < b.order ∨ (a.order = b.order ∧ strLe a.id b.id = true)

instance : DecidableRel cmpByOrderThenId := fun a b => by
  unfold cmpByOrderThenId; infer_instance

/-- `normalizeArray(payload)` from `ManageOnboarding.tsx`: extracts the raw
array (direct array, `.questions` property of a truthy payload, else empty),
normalizes each item, and stably sorts by `order` then `id`. A thrown
`TypeError` from any item propagates. -/
def normalizeArray (payload : JVal) : Except String (List CQuestion) := do
  let arr : List JVal :=
    match payload with
    | .arr xs => xs
    | .obj fs =>
        (match fs.lookup "questions" with
         | some (.arr ys) => ys
         | _ => [])
    | _ => []
  let normalized ← arr.mapM normalizeQuestion
  return normalized.insertionSort cmpByOrderThenId

/-! ## Server-side question store (`server/db.ts`, `server/questions.controller.ts`,
`services/questions.service` / `controllers/questions.controller` in the
unnamed server part) -/

/-- The server-side `Question` record (`server/types.ts`). JS numbers are
embedded as integers. -/
structure SQuestion where
  id : Int
  text : String
  category : String
  applicableFor : List Gender
  order : Int
deriving DecidableEq, Repr

/-- The in-memory DB: the module-level `questions` array and `nextId`
counter of `db.ts` / `questions.service.ts`. -/
structure Store where
  questions : List SQuestion
  nextId : Int
deriving DecidableEq, Repr

/-- Response bodies the controllers produce. -/
inductive RBody where
  | question (q : SQuestion)
  | questionList (qs : List SQuestion)
  | message (s : String)
  | empty
deriving DecidableEq, Repr

/-- An HTTP response: status code and JSON (or empty) body. -/
structure Resp where
  status : Nat
  body : RBody
deriving DecidableEq, Repr

/-- Sorting by ascending `order`: the model of the stable JS
`sort((a, b) => a.order - b.order)`. -/
def byOrder (a b : SQuestion) : Prop := a.order ≤ b.order

instance : DecidableRel byOrder := fun a b => by unfold byOrder; infer_instance

instance : IsTotal SQuestion byOrder := ⟨fun a b => Int.le_total a.order b.order⟩

instance : IsTrans SQuestion byOrder := ⟨fun _ _ _ h h' => Int.le_trans h h'⟩

/-- `getQuestions` / `getAllQuestions`: all questions sorted ascending by
`order` (a sorted copy; the store is unchanged). -/
def getQuestions (st : Store) : List SQuestion :=
  st.questions.insertionSort byOrder

/-- `createQuestion` (`questions.controller.ts:10-33`, service `:89-108`):
rejects an empty `text` or `category` with 400 (`!text || !category`),
otherwise assigns `id = nextId++`, `order = max(existing order) + 1`
(`Math.max` of the orders, `0` for an empty collection), defaults
`applicableFor` to `[]`, appends, and responds 201. -/
def createQuestion (st : Store) (text category : String)
    (applicableFor : Option (List Gender)) : Store × Resp :=
  if text = "" ∨ category = "" then
    (st, ⟨400, .message "text and category are required"⟩)
  else
    let maxOrder : Int :=
      match st.questions.map (fun q => q.order) with
      | [] => 0
      | o :: os => os.foldl max o
    let newQuestion : SQuestion :=
      { id := st.nextId, text := text, category := category,
        applicableFor := applicableFor.getD [], order := maxOrder + 1 }
    ({ questions := st.questions ++ [newQuestion], nextId := st.nextId + 1 },
     ⟨201, .question newQuestion⟩)

/-- `updateQuestion` (`questions.controller.ts:35-53`, service `:111-125`):
404 when `findIndex` misses, otherwise merges only the supplied fields of
`text`, `category`, `applicableFor` into the record at the found index. -/
def updateQuestion (st : Store) (id : Int) (text : Option String)
    (category : Option String) (applicableFor : Option (List Gender)) : Store × Resp :=
  let idx := st.questions.findIdx (fun q => q.id == id)
  if h : idx < st.questions.length then
    let old := st.questions.get ⟨idx, h⟩
    let merged : SQuestion :=
      { old with
        text := text.getD old.text,
        category := category.getD old.category,
        applicableFor := applicableFor.getD old.applicableFor }
    ({ st with questions := st.questions.set idx merged }, ⟨200, .question merged⟩)
  else
    (st, ⟨404, .message "Question not found"⟩)

/-- `deleteQuestion` (`questions.controller.ts:55-67`, service `:128-134`):
404 when no record matches, otherwise `splice` out the record at the first
matching index and respond 204 with an empty body. -/
def deleteQuestion (st : Store) (id : Int) : Store × Resp :=
  if st.questions.any (fun q => q.id == id) then
    ({ st with
       questions := st.questions.eraseIdx (st.questions.findIdx (fun q => q.id == id)) },
     ⟨204, .empty⟩)
  else
    (st, ⟨404, .message "Question not found"⟩)

/-- One step of `Map.prototype.set`: overwrite the entry of an existing key,
else append (JS `Map`s preserve insertion order). -/
def jsMapSet {α : Type} (eq : α → α → Bool) (m : List (α × Int)) (k : α) (v : Int) :
    List (α × Int) :=
  if m.any (fun p => eq p.1 k) then
    m.map (fun p => if eq p.1 k then (k, v) else p)
  else m ++ [(k, v)]

/-- `Map.prototype.get` as an association-list lookup. -/
def jsMapGet {α : Type} (eq : α → α → Bool) (m : List (α × Int)) (k : α) : Option Int :=
  (m.find? (fun p => eq p.1 k)).map (fun p => p.2)

/-- The `orderMap` of `reorderQuestions`: `orderedIds.forEach((id, index) =>
orderMap.set(id, index + 1))`. -/
def buildOrderMap {α : Type} (eq : α → α → Bool) (orderedIds : List α) : List (α × Int) :=
  orderedIds.enum.foldl (fun m p => jsMapSet eq m p.2 ((p.1 : Int) + 1)) []

/-- `reorderQuestions` (`questions.controller.ts:137-152`), generic in the
runtime type of the ids (`key` extracts the value `q.id` is compared as):
assign `order = orderMap.get(q.id) ?? q.order` to every question, then sort
by the updated `order`. -/
def reorderQuestionsWith {α : Type} (eq : α → α → Bool) (key : SQuestion → α)
    (qs : List SQuestion) (orderedIds : List α) : List SQuestion :=
  let orderMap := buildOrderMap eq orderedIds
  let updated := qs.map (fun q => { q with order := (jsMapGet eq orderMap (key q)).getD q.order })
  updated.insertionSort byOrder

/-- `reorderQuestions(orderedIds: number[])` at its TypeScript type: the
module-level `questions` array is reassigned to the sorted result, which is
also returned. -/
def reorderQuestions (st : Store) (orderedIds : List Int) : Store × List SQuestion :=
  let l := reorderQuestionsWith (fun a b => a == b) (fun q => q.id) st.questions orderedIds
  ({ st with questions := l }, l)

/-- JS SameValueZero equality, as used for `Map` keys. Distinct array and
object literals out of a parsed payload are never reference-equal, so
composite values compare unequal. -/
def jsSameValueZero : JVal → JVal → Bool
  | .undefined, .undefined => true
  | .null, .null => true
  | .bool a, .bool b => a == b
  | .num a, .num b => a == b
  | .str a, .str b => a == b
  | _, _ => false

/-- `handleReorderQuestions` (unnamed server part, lines 49-58): destructure
`orderedIds` from the body (throws on a nullish body), 400 unless it is an
array, else run the reorder service on the raw runtime values and respond
200 with the updated list. -/
def handleReorderQuestions (st : Store) (body : JVal) : Except String (Store × Resp) := do
  let orderedIds ← getField body "orderedIds"
  match orderedIds with
  | .arr xs =>
      let updatedList := reorderQuestionsWith jsSameValueZero (fun q => .num q.id) st.questions xs
      return ({ st with questions := updatedList }, ⟨200, .questionList updatedList⟩)
  | _ => return (st, ⟨400, .message "orderedIds must be an array"⟩)

/-! ## Client-side reorder reconciler (`handleDrop` in `ManageOnboarding.tsx`) -/

/-- What the `fetch` of the reorder commit produced: a transport error, a
response body that could not be read, or a response with a status code and
the result of `JSON.parse` on its text (`none` models a parse failure). -/
inductive FetchOutcome where
  | networkError (msg : String)
  | bodyReadError
  | response (status : Nat) (parsed : Option JVal)

/-- The UI state `handleDrop` leaves behind: the visible question list, the
surfaced error (if any) and the success message (if any). -/
structure DropOutcome where
  questions : List CQuestion
  error : Option String
  successMessage : Option String

/-- `handleDrop` (`ManageOnboarding.tsx:368-630`) as a function of the
pre-drag list, the drag state and the server outcome: a no-op when dropping
on the origin or an unknown id; otherwise move the dragged item to the
target's position, renumber `order = index + 1`, optimistically show that
list, and commit.  Every throw inside the `try` (payload validation),
transport error, unreadable or unparseable body, and non-2xx status
restores `previousState` (the pre-drag snapshot) and surfaces an error;
only a 2xx response keeps the optimistic list (or replaces it with the
server's normalized collection when one is recognizable). -/
def handleDrop (questions : List CQuestion) (draggedId : Option String)
    (targetId : String) (outcome : FetchOutcome) : DropOutcome :=
  match draggedId with
  | none => ⟨questions, none, none⟩
  | some did =>
    if did = targetId then ⟨questions, none, none⟩
    else
      match questions.findIdx? (fun q => q.id == did),
            questions.findIdx? (fun q => q.id == targetId) with
      | some fromIndex, some toIndex =>
        let moved := (questions.get? fromIndex).getD
          ⟨"", .undefined, .undefined, 0, "", []⟩
        let without := questions.eraseIdx fromIndex
        let current := without.take toIndex ++ moved :: without.drop toIndex
        let reorderedList := current.enum.map (fun p => { p.2 with order := (p.1 : Int) + 1 })
        let previousState := questions
        if reorderedList.any (fun q => q.id == "" || q.id == "undefined") then
          ⟨previousState, some "Invalid ID detected in question", none⟩
        else
          let sentIds := reorderedList.map (fun q => q.id)
          let expectedIds := (List.range 25).map (fun i => toString (i + 4))
          let missingIds := expectedIds.filter (fun i => !(sentIds.contains i))
          if !missingIds.isEmpty then
            ⟨previousState, some ("Missing IDs: " ++ String.intercalate ", " missingIds), none⟩
          else if sentIds.any (fun i => sentIds.count i > 1) then
            ⟨previousState, some "Duplicate IDs", none⟩
          else
            match outcome with
            | .networkError msg => ⟨previousState, some ("Network error: " ++ msg), none⟩
            | .bodyReadError => ⟨previousState, some "Error: Could not read server response", none⟩
            | .response status parsed =>
              match parsed with
              | none => ⟨previousState, some "JSON parse error", none⟩
              | some data =>
                if !(200 ≤ status && status ≤ 299) then
                  match data with
                  | .null =>
                      ⟨previousState,
                       some "TypeError: Cannot read properties of null (reading error)", none⟩
                  | _ =>
                      let errorMsg := jsOr (jsGetD data "error") (jsOr (jsGetD data "message")
                        (jsOr (jsGetD data "details") (.str "Unknown error")))
                      ⟨previousState,
                       some ("Server error (" ++ toString status ++ "): " ++ jsToString errorMsg),
                       none⟩
                else
                  match data with
                  | .null =>
                      ⟨previousState,
                       some "TypeError: Cannot read properties of null (reading message)", none⟩
                  | _ =>
                    let isCollection :=
                      match data with
                      | .arr _ => true
                      | .obj fs =>
                          (match fs.lookup "questions" with
                           | some (.arr _) => true
                           | _ => false)
                      | _ => false
                    if isCollection then
                      match normalizeArray data with
                      | .error e => ⟨previousState, some e, none⟩
                      | .ok serverQuestions =>
                          if serverQuestions.isEmpty then
                            ⟨reorderedList, none, some "Questions reordered successfully!"⟩
                          else
                            ⟨serverQuestions, none, some "Questions reordered successfully!"⟩
                    else ⟨reorderedList, none, some "Questions reordered successfully!"⟩
      | _, _ => ⟨questions, none, none⟩

/-- The failure cases of the commit: transport error, unreadable body,
unparseable body, or a non-2xx status. -/
def isFailure : FetchOutcome → Bool
  | .networkError _ => true
  | .bodyReadError => true
  | .response status parsed => !(200 ≤ status && status ≤ 299) || parsed.isNone

/-- The JS object a normalized client `Question` is at runtime: feeding
`normalize`'s output back to it passes exactly this shape. -/
def questionToJs (q : CQuestion) : JVal :=
  .obj [("id", .str q.id), ("questionId", q.questionId), ("text", q.text),
        ("order", .num q.order), ("category", .str q.category),
        ("applicableFor", .arr (q.applicableFor.map (fun g => .str g.toStr)))]

/-! ## Helper lemmas -/

/-- Property access on a non-nullish value never throws. -/
theorem getField_ok (v : JVal) (f : String) (h : isNullish v = false) :
    getField v f = .ok (jsGetD v f) := by
  cases v <;> simp_all [getField, jsGetD, isNullish]

/-- `findIndex` returns `-1` (modelled as `length`) when no element matches. -/
theorem findIdx_eq_length_of_none {α : Type} (l : List α) (p : α → Bool)
    (h : ∀ x ∈ l, p x = false) : l.findIdx p = l.length := by
  induction l with
  | nil => simp
  | cons a t ih =>
      have ha := h a (List.mem_cons_self a t)
      simp [List.findIdx_cons, ha, ih (fun x hx => h x (List.mem_cons_of_mem a hx))]

/-- `findIndex` returns the first matching index. -/
theorem findIdx_eq_of_first {α : Type} (l : List α) (p : α → Bool) (i : Nat)
    (hi : i < l.length) (hp : p (l.get ⟨i, hi⟩) = true)
    (hmin : ∀ j (hj : j < i), p (l.get ⟨j, Nat.lt_trans hj hi⟩) = false) :
    l.findIdx p = i := by
  induction l generalizing i with
  | nil => simp at hi
  | cons a t ih =>
      cases i with
      | zero =>
          have hpa : p a = true := hp
          simp [List.findIdx_cons, hpa]
      | succ n =>
          have ha : p a = false := hmin 0 (Nat.succ_pos n)
          have hi' : n < t.length := Nat.lt_of_succ_lt_succ hi
          have hp' : p (t.get ⟨n, hi'⟩) = true := hp
          have hmin' : ∀ j (hj : j < n), p (t.get ⟨j, Nat.lt_trans hj hi'⟩) = false :=
            fun j hj => hmin (j + 1) (Nat.succ_lt_succ hj)
          simp [List.findIdx_cons, ha, ih n hi' hp' hmin']

/-- An update by an id no question carries is a 404 no-op. -/
theorem updateQuestion_notFound (st : Store) (id : Int) (text : Option String)
    (category : Option String) (app : Option (List Gender))
    (h : ∀ q ∈ st.questions, q.id ≠ id) :
    updateQuestion st id text category app
      = (st, ⟨404, .message "Question not found"⟩) := by
  have hfind : st.questions.findIdx (fun q => q.id == id) = st.questions.length :=
    findIdx_eq_length_of_none _ _ (fun x hx => by
      simpa using h x hx)
  simp only [updateQuestion, hfind]
  rw [dif_neg (lt_irrefl _)]

/-- A delete by an id no question carries is a 404 no-op. -/
theorem deleteQuestion_notFound (st : Store) (id : Int)
    (h : ∀ q ∈ st.questions, q.id ≠ id) :
    deleteQuestion st id = (st, ⟨404, .message "Question not found"⟩) := by
  have hany : st.questions.any (fun q => q.id == id) = false := by
    rw [List.any_eq_false]
    intro x hx
    simpa using h x hx
  simp [deleteQuestion, hany]

/-- Under unique ids, splicing out the first match removes exactly the
matching record and leaves every other record verbatim. -/
theorem eraseIdx_findIdx_eq_filter (l : List SQuestion) (id : Int)
    (h : (l.map (fun q => q.id)).Nodup) :
    l.eraseIdx (l.findIdx (fun q => q.id == id))
      = l.filter (fun q => !(q.id == id)) := by
  induction l with
  | nil => simp
  | cons a t ih =>
      rw [List.map_cons, List.nodup_cons] at h
      by_cases ha : a.id = id
      · have hb : (a.id == id) = true := by simpa using ha
        have hfilter : t.filter (fun q => !(q.id == id)) = t := by
          rw [List.filter_eq_self]
          intro x hx
          have hxa : x.id ≠ a.id := fun he => h.1 (he ▸ List.mem_map_of_mem _ hx)
          simp only [Bool.not_eq_eq_eq_not, Bool.not_true, beq_eq_false_iff_ne]
          exact fun he => hxa (by rw [he, ha])
        simp [List.findIdx_cons, hb, hfilter]
      · have hb : (a.id == id) = false := by simpa using ha
        simp [List.findIdx_cons, hb, ih h.2]

/-- `Map.set` on a fresh key appends the entry. -/
theorem jsMapSet_of_not_mem (m : List (Int × Int)) (k v : Int)
    (h : ∀ p ∈ m, p.1 ≠ k) :
    jsMapSet (fun a b => a == b) m k v = m ++ [(k, v)] := by
  have hc : m.any (fun p => p.1 == k) = false := by
    rw [List.any_eq_false]
    intro p hp
    simpa using h p hp
  simp [jsMapSet, hc]

/-- Folding `Map.set` over indexed pairs with pairwise-distinct keys, all
fresh for the accumulator, appends the corresponding entries in order. -/
theorem foldl_jsMapSet_append (ps : List (Nat × Int)) :
    ∀ m : List (Int × Int),
      (∀ q ∈ ps, ∀ p ∈ m, p.1 ≠ q.2) → (ps.map (fun q => q.2)).Nodup →
      ps.foldl (fun acc q => jsMapSet (fun a b => a == b) acc q.2 ((q.1 : Int) + 1)) m
        = m ++ ps.map (fun q => (q.2, (q.1 : Int) + 1)) := by
  induction ps with
  | nil => intro m _ _; simp
  | cons a t ih =>
      intro m hdisj hnd
      rw [List.map_cons, List.nodup_cons] at hnd
      rw [List.foldl_cons,
          jsMapSet_of_not_mem m a.2 _ (fun p hp => hdisj a (List.mem_cons_self a t) p hp)]
      have hd : ∀ q ∈ t, ∀ p ∈ m ++ [(a.2, (a.1 : Int) + 1)], p.1 ≠ q.2 := by
        intro q hq p hp
        rcases List.mem_append.mp hp with hpm | hps
        · exact hdisj q (List.mem_cons_of_mem a hq) p hpm
        · have hpe : p = (a.2, (a.1 : Int) + 1) := by simpa using hps
          rw [hpe]
          intro he
          have he' : a.2 = q.2 := he
          apply hnd.1
          rw [he']
          exact List.mem_map_of_mem (fun q => q.2) hq
      rw [ih _ hd hnd.2]
      simp

/-- Under distinct ids, the `orderMap` is exactly the indexed association
list of the sequence. -/
theorem buildOrderMap_eq (ids : List Int) (hnd : ids.Nodup) :
    buildOrderMap (fun a b => a == b) ids
      = ids.enum.map (fun p => (p.2, (p.1 : Int) + 1)) := by
  have hsnd : ids.enum.map (fun q => q.2) = ids := List.enumFrom_map_snd 0 ids
  exact foldl_jsMapSet_append ids.enum []
    (by intro q hq p hp; simp at hp) (by rw [hsnd]; exact hnd)

/-- Lookup in the indexed association list of a duplicate-free sequence:
the 1-based position of the key, offset by the enumeration start. -/
theorem jsMapGet_enumFrom (ids : List Int) (hnd : ids.Nodup) :
    ∀ (n : Nat) (k : Int),
      jsMapGet (fun a b => a == b)
          ((ids.enumFrom n).map (fun p => (p.2, (p.1 : Int) + 1))) k
        = if k ∈ ids then some (((n + ids.indexOf k : Nat) : Int) + 1) else none := by
  induction ids with
  | nil => intro n k; simp [jsMapGet]
  | cons a t ih =>
      rw [List.nodup_cons] at hnd
      intro n k
      have hlist : ((a :: t).enumFrom n).map (fun p => (p.2, (p.1 : Int) + 1))
          = (a, (n : Int) + 1) :: (t.enumFrom (n + 1)).map (fun p => (p.2, (p.1 : Int) + 1)) := by
        rw [List.enumFrom_cons, List.map_cons]
      rw [hlist]
      by_cases hak : a = k
      · subst hak
        have hfind : ((a, (n : Int) + 1) ::
              (t.enumFrom (n + 1)).map (fun p => (p.2, (p.1 : Int) + 1))).find?
                (fun p => p.1 == a)
            = some (a, (n : Int) + 1) := List.find?_cons_of_pos _ (by simp)
        simp [jsMapGet, hfind, List.indexOf_cons]
      · have hfind : ((a, (n : Int) + 1) ::
              (t.enumFrom (n + 1)).map (fun p => (p.2, (p.1 : Int) + 1))).find?
                (fun p => p.1 == k)
            = ((t.enumFrom (n + 1)).map (fun p => (p.2, (p.1 : Int) + 1))).find?
                (fun p => p.1 == k) :=
          List.find?_cons_of_neg _ (by simpa using hak)
        have hstep : jsMapGet (fun a b => a == b)
              ((a, (n : Int) + 1) ::
                (t.enumFrom (n + 1)).map (fun p => (p.2, (p.1 : Int) + 1))) k
            = jsMapGet (fun a b => a == b)
                ((t.enumFrom (n + 1)).map (fun p => (p.2, (p.1 : Int) + 1))) k := by
          simp [jsMapGet, hfind]
        rw [hstep, ih hnd.2 (n + 1) k]
        by_cases hkt : k ∈ t
        · have hmem : k ∈ a :: t := List.mem_cons_of_mem a hkt
          have hbeq : (a == k) = false := by simpa using hak
          simp only [hkt, if_true, hmem, List.indexOf_cons, hbeq, cond_false]
          congr 1
          push_cast
          ring
        · have hmem : k ∉ a :: t := by
            intro hc
            rcases List.mem_cons.mp hc with hc | hc
            · exact hak hc.symm
            · exact hkt hc
          simp [hkt, hmem]

/-- The `Set`-based dedup keeps a duplicate-free accumulator duplicate-free. -/
theorem jsDedup_aux_nodup {α : Type} [DecidableEq α] (l : List α) :
    ∀ acc : List α, acc.Nodup →
      (l.foldl (fun acc x => if x ∈ acc then acc else acc ++ [x]) acc).Nodup := by
  induction l with
  | nil => intro acc h; simpa using h
  | cons a t ih =>
      intro acc h
      rw [List.foldl_cons]
      by_cases ha : a ∈ acc
      · rw [if_pos ha]
        exact ih acc h
      · rw [if_neg ha]
        apply ih
        rw [List.nodup_append]
        refine ⟨h, List.nodup_singleton a, fun x hx hxa => ?_⟩
        have hxe : x = a := by simpa using hxa
        exact ha (hxe ▸ hx)

/-- The result of `Array.from(new Set(xs))` is duplicate-free. -/
theorem jsDedup_nodup {α : Type} [DecidableEq α] (l : List α) : (jsDedup l).Nodup :=
  jsDedup_aux_nodup l [] List.nodup_nil

/-- The `Set`-based dedup never shrinks a non-empty accumulator to nil. -/
theorem jsDedup_aux_ne_nil {α : Type} [DecidableEq α] (l : List α) :
    ∀ acc : List α, acc ≠ [] →
      l.foldl (fun acc x => if x ∈ acc then acc else acc ++ [x]) acc ≠ [] := by
  induction l with
  | nil => intro acc h; simpa using h
  | cons a t ih =>
      intro acc h
      rw [List.foldl_cons]
      by_cases ha : a ∈ acc
      · rw [if_pos ha]
        exact ih acc h
      · rw [if_neg ha]
        exact ih _ (by simp)

/-- `Array.from(new Set(xs))` of a non-empty list is non-empty. -/
theorem jsDedup_ne_nil {α : Type} [DecidableEq α] (l : List α) (h : l ≠ []) :
    jsDedup l ≠ [] := by
  cases l with
  | nil => exact absurd rfl h
  | cons a t =>
      unfold jsDedup
      rw [List.foldl_cons, if_neg (List.not_mem_nil a)]
      exact jsDedup_aux_ne_nil t ([] ++ [a]) (by simp)

/-- Any successfully normalized item's `applicableFor` is the dedup of the
default-corrected gender list computed from `applicableFor ?? applicable_for`. -/
theorem normalizeQuestion_ok_applicableFor (item : JVal) (q : CQuestion)
    (h : normalizeQuestion item = .ok q) :
    q.applicableFor
      = jsDedup (if (appListOf (rawApplicableFor item)).isEmpty
                 then [Gender.allGenders] else appListOf (rawApplicableFor item)) := by
  cases item with
  | undefined => simp [normalizeQuestion, getField, bind, Except.bind] at h
  | null => simp [normalizeQuestion, getField, bind, Except.bind] at h
  | bool b =>
      simp only [normalizeQuestion, getField, bind, Except.bind, pure, Except.pure,
        Except.ok.injEq] at h
      subst h
      rfl
  | num n =>
      simp only [normalizeQuestion, getField, bind, Except.bind, pure, Except.pure,
        Except.ok.injEq] at h
      subst h
      rfl
  | str s =>
      simp only [normalizeQuestion, getField, bind, Except.bind, pure, Except.pure,
        Except.ok.injEq] at h
      subst h
      rfl
  | arr xs =>
      simp only [normalizeQuestion, getField, bind, Except.bind, pure, Except.pure,
        Except.ok.injEq] at h
      subst h
      rfl
  | obj fs =>
      simp only [normalizeQuestion, getField, bind, Except.bind, pure, Except.pure,
        Except.ok.injEq] at h
      subst h
      rfl

/-! ## Theorems -/

/-- C2: the claim says a value containing "female" maps to Female and that an
exact match against the canonical tags takes precedence.  The code checks
`lower.includes('male')` first, and "female" contains "male" as a substring,
so both the exact canonical tag "Female" and "female" itself normalize to
Male; the dedicated female branch (which survives for the input "f") is dead
for every input containing "female".  The claimed mapping therefore fails. -/
theorem normalizeGender_female_maps_to_male :
    normalizeGender (.str "Female") = .male ∧
    normalizeGender (.str "female") = .male ∧
    normalizeGender (.str "f") = .female := by
  refine ⟨by decide, by decide, by decide⟩

/-- C5: the claim says the normalizer is total for arbitrary element shapes
including `null`.  But `normalizeQuestion` begins with `item.id`, and
reading a property of `null` throws a `TypeError`, which `normalizeArray`
propagates: a payload whose array contains `null` raises. -/
theorem normalizeArray_throws_on_null_element :
    normalizeArray (.arr [.null]) =
      .error "TypeError: Cannot read properties of null (reading id)" := rfl

/-- The payload exhibiting the idempotence failure of C6. -/
def idempotenceInput : JVal :=
  .arr [.obj [("id", .num 1), ("applicableFor", .str "f")]]

/-- C6: idempotence of the normalizer fails on the canonical field
`applicableFor`.  A first pass over `{id: 1, applicableFor: "f"}` yields
`["Female"]` (the `'f'` exact branch); re-normalizing that output maps the
string "Female" through `normalizeGender` again, where the
`includes('male')` branch fires first, yielding `["Male"]`. -/
theorem normalizeArray_not_idempotent :
    (normalizeArray idempotenceInput).map (fun l => l.map (fun q => q.applicableFor))
        = .ok [[.female]] ∧
    ((normalizeArray idempotenceInput).bind
        (fun l => normalizeArray (.arr (l.map questionToJs)))).map
          (fun l => l.map (fun q => q.applicableFor))
        = .ok [[.male]] := by
  exact ⟨rfl, rfl⟩

/-- A one-question store for the reorder-endpoint counterexample. -/
def reorderDemoStore : Store := ⟨[⟨1, "Age?", "Demographics", [], 1⟩], 2⟩

/-- C10 (counterexample): the claim says the endpoint accepts a body of
shape `{questions: [{id, questionId}...]}` with a 200 response.  The handler
destructures only `orderedIds`, so such a body — having no `orderedIds`
array — is rejected with 400. -/
theorem handleReorder_rejects_questions_shape :
    handleReorderQuestions reorderDemoStore
        (.obj [("questions", .arr [.obj [("id", .num 1), ("questionId", .str "Q1")]])])
      = .ok (reorderDemoStore, ⟨400, .message "orderedIds must be an array"⟩) := rfl

/-- C3: a create call with non-empty `text` and `category` assigns
`id = nextId++` and `order = 1 + max(order among the prior questions)` (1
when the collection was empty), defaults `applicableFor` to the empty set,
appends the new question and responds 201; an empty `text` or `category`
yields 400 and leaves the collection unchanged. -/
theorem createQuestion_spec (st : Store) (text category : String)
    (app : Option (List Gender)) :
    ((text = "" ∨ category = "") →
      createQuestion st text category app
        = (st, ⟨400, .message "text and category are required"⟩)) ∧
    (text ≠ "" → category ≠ "" →
      ∃ q : SQuestion,
        createQuestion st text category app
          = (⟨st.questions ++ [q], st.nextId + 1⟩, ⟨201, .question q⟩) ∧
        q.id = st.nextId ∧ q.text = text ∧ q.category = category ∧
        q.applicableFor = app.getD [] ∧
        (st.questions = [] → q.order = 1) ∧
        (∀ m : Int, (st.questions.map (fun p => p.order)).max? = some m →
          q.order = m + 1)) := by
  constructor
  · intro h
    simp only [createQuestion, if_pos h]
  · intro ht hc
    have h : ¬(text = "" ∨ category = "") := by
      rintro (h | h)
      · exact ht h
      · exact hc h
    refine ⟨{ id := st.nextId, text := text, category := category,
              applicableFor := app.getD [],
              order := (match st.questions.map (fun p => p.order) with
                        | [] => 0
                        | o :: os => os.foldl max o) + 1 },
            ?_, rfl, rfl, rfl, rfl, ?_, ?_⟩
    · simp only [createQuestion, if_neg h]
    · intro he
      simp [he]
    · intro m hm
      cases hqs : st.questions.map (fun p => p.order) with
      | nil => rw [hqs] at hm; simp [List.max?] at hm
      | cons o os =>
          rw [hqs] at hm
          have hm2 : os.foldl max o = m := by simpa [List.max?] using hm
          simp [hqs, hm2]

/-- A seeded one-question store for the create witness. -/
def createDemoStore : Store := ⟨[⟨1, "Age?", "Demographics", [.allGenders], 1⟩], 2⟩

/-- Witness for C3: the validation branch at empty `text`, and the success
branch at `("Goal?", "Goals")`, both on a seeded store. -/
theorem createQuestion_spec_witness :
    (createQuestion createDemoStore "" "Demographics" none
      = (createDemoStore, ⟨400, .message "text and category are required"⟩)) ∧
    (∃ q : SQuestion,
        createQuestion createDemoStore "Goal?" "Goals" none
          = (⟨createDemoStore.questions ++ [q], createDemoStore.nextId + 1⟩,
             ⟨201, .question q⟩) ∧
        q.id = createDemoStore.nextId ∧ q.text = "Goal?" ∧ q.category = "Goals" ∧
        q.applicableFor = (none : Option (List Gender)).getD [] ∧
        (createDemoStore.questions = [] → q.order = 1) ∧
        (∀ m : Int, (createDemoStore.questions.map (fun p => p.order)).max? = some m →
          q.order = m + 1)) :=
  ⟨(createQuestion_spec createDemoStore "" "Demographics" none).1 (Or.inl rfl),
   (createQuestion_spec createDemoStore "Goal?" "Goals" none).2 (by decide) (by decide)⟩

/-- C8: an update by an unknown id is a 404 no-op; otherwise exactly the
supplied fields among `text`, `category`, `applicableFor` are merged into
the record at the first matching index, the record's `id` and `order` (and
every unsupplied field) are untouched, every other record is untouched, and
the merged question is returned with status 200. -/
theorem updateQuestion_spec (st : Store) (id : Int) (text : Option String)
    (category : Option String) (app : Option (List Gender)) :
    ((∀ q ∈ st.questions, q.id ≠ id) →
      updateQuestion st id text category app
        = (st, ⟨404, .message "Question not found"⟩)) ∧
    (∀ i (hi : i < st.questions.length),
      (st.questions.get ⟨i, hi⟩).id = id →
      (∀ j (hj : j < i), (st.questions.get ⟨j, Nat.lt_trans hj hi⟩).id ≠ id) →
      ∃ merged : SQuestion,
        updateQuestion st id text category app
          = ({ st with questions := st.questions.set i merged }, ⟨200, .question merged⟩) ∧
        merged.id = (st.questions.get ⟨i, hi⟩).id ∧
        merged.order = (st.questions.get ⟨i, hi⟩).order ∧
        merged.text = text.getD (st.questions.get ⟨i, hi⟩).text ∧
        merged.category = category.getD (st.questions.get ⟨i, hi⟩).category ∧
        merged.applicableFor = app.getD (st.questions.get ⟨i, hi⟩).applicableFor ∧
        (∀ j (hj : j < st.questions.length), j ≠ i →
          (st.questions.set i merged).get ⟨j, by simpa using hj⟩
            = st.questions.get ⟨j, hj⟩)) := by
  constructor
  · exact updateQuestion_notFound st id text category app
  · intro i hi hp hmin
    have hfind : st.questions.findIdx (fun q => q.id == id) = i :=
      findIdx_eq_of_first _ _ i hi (by simpa using hp)
        (fun j hj => by simpa using hmin j hj)
    refine ⟨{ st.questions.get ⟨i, hi⟩ with
              text := text.getD (st.questions.get ⟨i, hi⟩).text,
              category := category.getD (st.questions.get ⟨i, hi⟩).category,
              applicableFor := app.getD (st.questions.get ⟨i, hi⟩).applicableFor },
            ?_, rfl, rfl, rfl, rfl, rfl, ?_⟩
    · simp only [updateQuestion, hfind]
      rw [dif_pos hi]
    · intro j hj hne
      simp [List.get_eq_getElem, List.getElem_set_ne (Ne.symm hne)]

/-- A seeded two-question store for the update and delete witnesses. -/
def updateDemoStore : Store :=
  ⟨[⟨1, "Age?", "Demographics", [.allGenders], 5⟩,
    ⟨2, "Goal?", "Goals", [.male], 3⟩], 3⟩

/-- Witness for C8: a 404 at the unknown id 9, and a merge of only the
`text` field into the record with id 2 (position 1), keeping its `order`. -/
theorem updateQuestion_spec_witness :
    (updateQuestion updateDemoStore 9 none none none
      = (updateDemoStore, ⟨404, .message "Question not found"⟩)) ∧
    (∃ merged : SQuestion,
        updateQuestion updateDemoStore 2 (some "Goal2?") none none
          = ({ updateDemoStore with
               questions := updateDemoStore.questions.set 1 merged },
             ⟨200, .question merged⟩) ∧
        merged.id = (updateDemoStore.questions.get ⟨1, by decide⟩).id ∧
        merged.order = (updateDemoStore.questions.get ⟨1, by decide⟩).order ∧
        merged.text = (some "Goal2?").getD (updateDemoStore.questions.get ⟨1, by decide⟩).text ∧
        merged.category
          = (none : Option String).getD (updateDemoStore.questions.get ⟨1, by decide⟩).category ∧
        merged.applicableFor
          = (none : Option (List Gender)).getD
              (updateDemoStore.questions.get ⟨1, by decide⟩).applicableFor ∧
        (∀ j (hj : j < updateDemoStore.questions.length), j ≠ 1 →
          (updateDemoStore.questions.set 1 merged).get ⟨j, by simpa using hj⟩
            = updateDemoStore.questions.get ⟨j, hj⟩)) :=
  ⟨(updateQuestion_spec updateDemoStore 9 none none none).1 (by decide),
   (updateQuestion_spec updateDemoStore 2 (some "Goal2?") none none).2 1 (by decide)
     (by decide)
     (fun j hj => by
        have hj0 : j = 0 := Nat.lt_one_iff.mp hj
        subst hj0
        show (1 : Int) ≠ 2
        decide)⟩

/-- C9: a delete fails with 404 if and only if no question has the id;
otherwise it removes exactly the matching record (so the id is gone from the
collection and from `list()`, and a subsequent update or delete by that id
is a 404), responds 204 with an empty body, and leaves the `order` values of
the remaining records untouched (they are kept verbatim by the filter). -/
theorem deleteQuestion_spec (st : Store) (id : Int)
    (hnd : (st.questions.map (fun q => q.id)).Nodup) :
    ((∀ q ∈ st.questions, q.id ≠ id) →
      deleteQuestion st id = (st, ⟨404, .message "Question not found"⟩)) ∧
    ((∃ q ∈ st.questions, q.id = id) →
      (deleteQuestion st id).2 = ⟨204, .empty⟩ ∧
      (deleteQuestion st id).1.questions
        = st.questions.filter (fun q => !(q.id == id)) ∧
      (∀ q ∈ (deleteQuestion st id).1.questions, q.id ≠ id) ∧
      (∀ q ∈ getQuestions (deleteQuestion st id).1, q.id ≠ id) ∧
      (∀ text category app,
        updateQuestion (deleteQuestion st id).1 id text category app
          = ((deleteQuestion st id).1, ⟨404, .message "Question not found"⟩)) ∧
      deleteQuestion (deleteQuestion st id).1 id
        = ((deleteQuestion st id).1, ⟨404, .message "Question not found"⟩)) := by
  constructor
  · exact deleteQuestion_notFound st id
  · rintro ⟨q, hq, hqid⟩
    have hany : st.questions.any (fun p => p.id == id) = true :=
      List.any_eq_true.mpr ⟨q, hq, by simpa using hqid⟩
    have hdel : deleteQuestion st id
        = ({ st with questions := st.questions.filter (fun p => !(p.id == id)) },
           ⟨204, .empty⟩) := by
      simp [deleteQuestion, hany, eraseIdx_findIdx_eq_filter st.questions id hnd]
    have hmem : ∀ p ∈ st.questions.filter (fun p => !(p.id == id)), p.id ≠ id := by
      intro p hp
      have := List.of_mem_filter hp
      simpa using this
    rw [hdel]
    refine ⟨rfl, rfl, hmem, ?_, ?_, ?_⟩
    · intro p hp
      have hp' : p ∈ st.questions.filter (fun p => !(p.id == id)) := by
        simpa [getQuestions] using (List.mem_insertionSort byOrder).mp hp
      exact hmem p hp'
    · intro text category app
      exact updateQuestion_notFound _ id text category app hmem
    · exact deleteQuestion_notFound _ id hmem

/-- A seeded two-question store for the delete witness (orders 5 and 3 are
deliberately non-dense to show they are not renumbered). -/
def deleteDemoStore : Store :=
  ⟨[⟨1, "Age?", "Demographics", [.allGenders], 5⟩,
    ⟨2, "Goal?", "Goals", [.male], 3⟩], 3⟩

/-- Witness for C9: a 404 at the unknown id 9, and a successful delete of
id 1 on the seeded store, with all post-conditions instantiated. -/
theorem deleteQuestion_spec_witness :
    (deleteQuestion deleteDemoStore 9
      = (deleteDemoStore, ⟨404, .message "Question not found"⟩)) ∧
    ((deleteQuestion deleteDemoStore 1).2 = ⟨204, .empty⟩ ∧
      (deleteQuestion deleteDemoStore 1).1.questions
        = deleteDemoStore.questions.filter (fun q => !(q.id == 1)) ∧
      (∀ q ∈ (deleteQuestion deleteDemoStore 1).1.questions, q.id ≠ 1) ∧
      (∀ q ∈ getQuestions (deleteQuestion deleteDemoStore 1).1, q.id ≠ 1) ∧
      (∀ text category app,
        updateQuestion (deleteQuestion deleteDemoStore 1).1 1 text category app
          = ((deleteQuestion deleteDemoStore 1).1, ⟨404, .message "Question not found"⟩)) ∧
      deleteQuestion (deleteQuestion deleteDemoStore 1).1 1
        = ((deleteQuestion deleteDemoStore 1).1, ⟨404, .message "Question not found"⟩)) :=
  ⟨(deleteQuestion_spec deleteDemoStore 9 (by decide)).1 (by decide),
   (deleteQuestion_spec deleteDemoStore 1 (by decide)).2
     ⟨⟨1, "Age?", "Demographics", [.allGenders], 5⟩, by decide, rfl⟩⟩

/-- C1: for a duplicate-free id sequence, `reorder` gives every question
whose id sits at position `i` of the sequence the order `i + 1`, leaves the
order (and all other fields) of every question whose id is absent unchanged,
and returns the full collection — which is also the new store content —
sorted ascending by the updated order. -/
theorem reorderQuestions_spec (st : Store) (orderedIds : List Int)
    (hnd : orderedIds.Nodup) :
    ((reorderQuestions st orderedIds).2).Pairwise (fun a b => a.order ≤ b.order) ∧
    (reorderQuestions st orderedIds).1.questions = (reorderQuestions st orderedIds).2 ∧
    (reorderQuestions st orderedIds).1.nextId = st.nextId ∧
    (reorderQuestions st orderedIds).2.Perm
      (st.questions.map (fun q =>
        if q.id ∈ orderedIds
        then { q with order := (orderedIds.indexOf q.id : Int) + 1 }
        else q)) := by
  have hmapfun : ∀ q ∈ st.questions,
      { q with order := (jsMapGet (fun a b => a == b)
          (buildOrderMap (fun a b => a == b) orderedIds) q.id).getD q.order }
      = (if q.id ∈ orderedIds
         then { q with order := (orderedIds.indexOf q.id : Int) + 1 }
         else q) := by
    intro q _
    rw [buildOrderMap_eq orderedIds hnd]
    have henum : orderedIds.enum = orderedIds.enumFrom 0 := rfl
    rw [henum, jsMapGet_enumFrom orderedIds hnd 0 q.id]
    by_cases hmem : q.id ∈ orderedIds
    · simp [hmem]
    · simp [hmem]
  have hupd : (reorderQuestions st orderedIds).2
      = (st.questions.map (fun q =>
          { q with order := (jsMapGet (fun a b => a == b)
              (buildOrderMap (fun a b => a == b) orderedIds) q.id).getD q.order
          })).insertionSort byOrder := rfl
  refine ⟨?_, rfl, rfl, ?_⟩
  · rw [hupd]
    exact List.Pairwise.imp (fun h => h) (List.sorted_insertionSort byOrder _)
  · rw [hupd, List.map_congr_left hmapfun]
    exact List.perm_insertionSort byOrder _

/-- A three-question store with ids 1, 2, 3 for the reorder witness. -/
def reorderDemoStore2 : Store :=
  ⟨[⟨1, "A", "c", [], 1⟩, ⟨2, "B", "c", [], 2⟩, ⟨3, "C", "c", [], 3⟩], 4⟩

/-- Witness for C1: reordering ids `{1,2,3}` with the sequence `[3,1,2]`
gives id 3 order 1, id 1 order 2, id 2 order 3, in that sorted order. -/
theorem reorderQuestions_spec_witness :
    ([3, 1, 2] : List Int).Nodup ∧
    ((reorderQuestions reorderDemoStore2 [3, 1, 2]).2.Pairwise
        (fun a b => a.order ≤ b.order) ∧
      (reorderQuestions reorderDemoStore2 [3, 1, 2]).1.questions
        = (reorderQuestions reorderDemoStore2 [3, 1, 2]).2 ∧
      (reorderQuestions reorderDemoStore2 [3, 1, 2]).1.nextId
        = reorderDemoStore2.nextId ∧
      (reorderQuestions reorderDemoStore2 [3, 1, 2]).2.Perm
        (reorderDemoStore2.questions.map (fun q =>
          if q.id ∈ ([3, 1, 2] : List Int)
          then { q with order := (([3, 1, 2] : List Int).indexOf q.id : Int) + 1 }
          else q))) ∧
    (reorderQuestions reorderDemoStore2 [3, 1, 2]).2
      = [⟨3, "C", "c", [], 1⟩, ⟨1, "A", "c", [], 2⟩, ⟨2, "B", "c", [], 3⟩] :=
  ⟨by decide, reorderQuestions_spec reorderDemoStore2 [3, 1, 2] (by decide), by decide⟩

/-- C7: for every raw item that normalizes successfully, `applicableFor` is
a non-empty, duplicate-free list of canonical tags, and an item whose gender
field is missing (`applicableFor ?? applicable_for` is `undefined`) or the
empty string normalizes to exactly `["All Genders"]`. -/
theorem applicableFor_invariant (item : JVal) (q : CQuestion)
    (h : normalizeQuestion item = .ok q) :
    q.applicableFor ≠ [] ∧
    q.applicableFor.Nodup ∧
    (∀ g ∈ q.applicableFor,
      g = .male ∨ g = .female ∨ g = .nonbinary ∨ g = .allGenders) ∧
    ((rawApplicableFor item = .undefined ∨ rawApplicableFor item = .str "") →
      q.applicableFor = [.allGenders]) := by
  have happ := normalizeQuestion_ok_applicableFor item q h
  refine ⟨?_, ?_, ?_, ?_⟩
  · rw [happ]
    apply jsDedup_ne_nil
    by_cases he : (appListOf (rawApplicableFor item)).isEmpty
    · rw [if_pos he]
      simp
    · rw [if_neg he]
      intro hnil
      exact he (by simp [hnil])
  · rw [happ]
    exact jsDedup_nodup _
  · intro g _
    cases g
    · exact Or.inl rfl
    · exact Or.inr (Or.inl rfl)
    · exact Or.inr (Or.inr (Or.inl rfl))
    · exact Or.inr (Or.inr (Or.inr rfl))
  · rintro (hr | hr) <;> rw [happ, hr] <;> rfl

/-- An item with no gender field at all, for the C7 witness. -/
def c7Item : JVal := .obj [("text", .str "Age?")]

/-- What `normalizeQuestion` produces on `c7Item`. -/
def c7Question : CQuestion :=
  ⟨"", .str "", .str "Age?", 0, "Uncategorized", [.allGenders]⟩

/-- Witness for C7: the no-gender-field item normalizes successfully and all
four invariant conjuncts hold, with `applicableFor = ["All Genders"]`. -/
theorem applicableFor_invariant_witness :
    normalizeQuestion c7Item = .ok c7Question ∧
    (c7Question.applicableFor ≠ [] ∧
      c7Question.applicableFor.Nodup ∧
      (∀ g ∈ c7Question.applicableFor,
        g = .male ∨ g = .female ∨ g = .nonbinary ∨ g = .allGenders) ∧
      ((rawApplicableFor c7Item = .undefined ∨ rawApplicableFor c7Item = .str "") →
        c7Question.applicableFor = [.allGenders])) :=
  ⟨rfl, applicableFor_invariant c7Item c7Question rfl⟩

/-- C4: when an effective drag (distinct, known origin and target ids) has
been optimistically applied and the reorder commit fails — transport error,
unreadable body, unparseable body, or non-2xx status — the visible list is
restored to the exact pre-drag snapshot and an error message is surfaced. -/
theorem handleDrop_rollback (qs : List CQuestion) (did targetId : String)
    (outcome : FetchOutcome)
    (hne : did ≠ targetId)
    (hfrom : (qs.findIdx? (fun q => q.id == did)).isSome = true)
    (hto : (qs.findIdx? (fun q => q.id == targetId)).isSome = true)
    (hfail : isFailure outcome = true) :
    (handleDrop qs (some did) targetId outcome).questions = qs ∧
    (handleDrop qs (some did) targetId outcome).error.isSome = true := by
  obtain ⟨i, hi⟩ := Option.isSome_iff_exists.mp hfrom
  obtain ⟨j, hj⟩ := Option.isSome_iff_exists.mp hto
  cases outcome with
  | networkError msg =>
      simp only [handleDrop, hi, hj, if_neg hne]
      repeat' split
      all_goals exact ⟨rfl, rfl⟩
  | bodyReadError =>
      simp only [handleDrop, hi, hj, if_neg hne]
      repeat' split
      all_goals exact ⟨rfl, rfl⟩
  | response status parsed =>
      cases parsed with
      | none =>
          simp only [handleDrop, hi, hj, if_neg hne]
          repeat' split
          all_goals exact ⟨rfl, rfl⟩
      | some data =>
          have hcond : (!(decide (200 ≤ status) && decide (status ≤ 299))) = true := by
            have h1 := hfail
            simp only [isFailure, Option.isNone_some, Bool.or_false] at h1
            exact h1
          simp only [handleDrop, hi, hj, if_neg hne, hcond, if_true]
          repeat' split
          all_goals exact ⟨rfl, rfl⟩

/-- A visible list with the ids "4".."28" the debug validation of
`handleDrop` expects, so the witness reaches the fetch rather than a
payload-validation throw. -/
def c4Questions : List CQuestion :=
  (List.range 25).map (fun i =>
    ⟨toString (i + 4), .str "", .str "", (i : Int) + 1, "Uncategorized", [.allGenders]⟩)

/-- Witness for C4: dragging id "4" onto id "5" with a 500 response carrying
`{"message": "boom"}` rolls the visible list back to the pre-drag snapshot
and surfaces an error. -/
theorem handleDrop_rollback_witness :
    ("4" : String) ≠ "5" ∧
    (c4Questions.findIdx? (fun q => q.id == "4")).isSome = true ∧
    (c4Questions.findIdx? (fun q => q.id == "5")).isSome = true ∧
    isFailure (.response 500 (some (.obj [("message", .str "boom")]))) = true ∧
    ((handleDrop c4Questions (some "4") "5"
        (.response 500 (some (.obj [("message", .str "boom")])))).questions = c4Questions ∧
      (handleDrop c4Questions (some "4") "5"
        (.response 500 (some (.obj [("message", .str "boom")])))).error.isSome = true) :=
  ⟨by decide, by decide, by decide, rfl,
   handleDrop_rollback c4Questions "4" "5"
     (.response 500 (some (.obj [("message", .str "boom")])))
     (by decide) (by decide) (by decide) rfl⟩

/-- C10 (amended): on a non-nullish body, the reorder endpoint responds 200
with the reordered array — also stored — when `orderedIds` is an array, and
responds 400 leaving the store unchanged if and only if `orderedIds` is not
an array (so a `{questions: [...]}`-shaped body without `orderedIds` gets
400, not 200). -/
theorem handleReorderQuestions_spec (st : Store) (body : JVal)
    (h : isNullish body = false) :
    (∀ xs, jsGetD body "orderedIds" = .arr xs →
      handleReorderQuestions st body
        = .ok ({ st with
                 questions := reorderQuestionsWith jsSameValueZero
                                (fun q => .num q.id) st.questions xs },
               ⟨200, .questionList
                  (reorderQuestionsWith jsSameValueZero (fun q => .num q.id)
                    st.questions xs)⟩)) ∧
    ((∀ xs, jsGetD body "orderedIds" ≠ .arr xs) →
      handleReorderQuestions st body
        = .ok (st, ⟨400, .message "orderedIds must be an array"⟩)) := by
  constructor
  · intro xs hxs
    simp only [handleReorderQuestions, getField_ok body _ h, hxs, bind, Except.bind,
      pure, Except.pure]
  · intro hall
    cases hres : jsGetD body "orderedIds" with
    | arr xs => exact absurd hres (hall xs)
    | undefined =>
        simp only [handleReorderQuestions, getField_ok body _ h, hres, bind, Except.bind,
          pure, Except.pure]
    | null =>
        simp only [handleReorderQuestions, getField_ok body _ h, hres, bind, Except.bind,
          pure, Except.pure]
    | bool b =>
        simp only [handleReorderQuestions, getField_ok body _ h, hres, bind, Except.bind,
          pure, Except.pure]
    | num n =>
        simp only [handleReorderQuestions, getField_ok body _ h, hres, bind, Except.bind,
          pure, Except.pure]
    | str s =>
        simp only [handleReorderQuestions, getField_ok body _ h, hres, bind, Except.bind,
          pure, Except.pure]
    | obj fs =>
        simp only [handleReorderQuestions, getField_ok body _ h, hres, bind, Except.bind,
          pure, Except.pure]

/-- A well-formed reorder body for the C10 witness. -/
def reorderBody : JVal := .obj [("orderedIds", .arr [.num 1])]

/-- Witness for C10: an `{orderedIds: [1]}` body gets 200 with the reordered
array, and a `{questions: [...]}` body (no `orderedIds`) gets 400. -/
theorem handleReorderQuestions_spec_witness :
    isNullish reorderBody = false ∧
    jsGetD reorderBody "orderedIds" = .arr [.num 1] ∧
    handleReorderQuestions reorderDemoStore reorderBody
      = .ok ({ reorderDemoStore with
               questions := reorderQuestionsWith jsSameValueZero
                              (fun q => .num q.id) reorderDemoStore.questions [.num 1] },
             ⟨200, .questionList
                (reorderQuestionsWith jsSameValueZero (fun q => .num q.id)
                  reorderDemoStore.questions [.num 1])⟩) ∧
    handleReorderQuestions reorderDemoStore (.obj [("questions", .arr [])])
      = .ok (reorderDemoStore, ⟨400, .message "orderedIds must be an array"⟩) :=
  ⟨rfl, rfl,
   (handleReorderQuestions_spec reorderDemoStore reorderBody rfl).1 [.num 1] rfl,
   (handleReorderQuestions_spec reorderDemoStore (.obj [("questions", .arr [])]) rfl).2
     (fun xs hxs => JVal.noConfusion (show JVal.undefined = JVal.arr xs from hxs))⟩

end AARP
